import Mathlib

/-!
Verification of the figaro agent host (Go) against its specification.

The definitions below are a shallow embedding of the Go source:
  * `src/figaro/figaro.go` — registry, agent loop, tool dispatch, stream handling;
  * `src/main.go` — process entry point and exit behaviour;
  * `src/conversation.go` — hash-chained conversation store.
Effects (the MCP `tools/call` round trip, the LLM stream, write success)
are passed in as explicit oracles; everything else is translated directly
from the source.
-/

/-- JSON values, modelling Go `any` values produced by `encoding/json`
(object fields kept in document order). -/
inductive Json where
  | null : Json
  | bool (b : Bool) : Json
  | num (n : Int) : Json
  | str (s : String) : Json
  | arr (xs : List Json) : Json
  | obj (fields : List (String × Json)) : Json

/-- Serialization of a `Json` value, standing for Go `json.Marshal`. -/
def jsonSerialize : Json → String
  | .null => "null"
  | .bool b => if b then "true" else "false"
  | .num n => toString n
  | .str s => "\"" ++ s ++ "\""
  | .arr xs => "[" ++ String.intercalate "," (jsonSerializeList xs) ++ "]"
  | .obj fields => "\x7b" ++ String.intercalate "," (jsonSerializeFields fields) ++ "\x7d"
where
  jsonSerializeList : List Json → List String
    | [] => []
    | x :: rest => jsonSerialize x :: jsonSerializeList rest
  jsonSerializeFields : List (String × Json) → List String
    | [] => []
    | (k, v) :: rest => ("\"" ++ k ++ "\":" ++ jsonSerialize v) :: jsonSerializeFields rest

/-- `mcp.Tool`: a tool descriptor cached by an MCP client. -/
structure Tool where
  name : String
  description : String
  inputSchema : Json

/-- The Go zero value of `mcp.Tool`, which `make([]mcp.Tool, n)` fills slots with. -/
def defaultTool : Tool := ⟨"", "", Json.null⟩

/-- A JSON-RPC response message (`jsonrpc.Message[any]`); only the `Result`
field is consumed by the agent loop (`createToolResultBlock`). -/
structure RpcMessage where
  result : Json

/-- `mcp.Client` as seen from `figaro.go`: the cached tool list (`Tools`),
the `ContainsTool` predicate, and the `tools/call` round trip (`SendMessage`),
the latter two living in the `mcp` package (outside `src/figaro`) and hence
kept as fields of the model: `containsToolFn` decides tool membership and
`sendTool` returns the JSON-RPC response for `tools/call`, or an error. -/
structure MCPClient where
  serverName : String
  tools : List Tool
  containsToolFn : String → Bool
  sendTool : String → List (String × Json) → Except String RpcMessage

/-- `mcp.Client.ContainsTool`. -/
def MCPClient.ContainsTool (c : MCPClient) (toolName : String) : Bool :=
  c.containsToolFn toolName

/-- The `Figaro` struct: registered MCP clients and the tool catalogue cache. -/
structure Figaro where
  clients : List MCPClient
  toolsCache : Option (List Tool)

/-- `Figaro.GetClientForTool`: first registered client containing the name. -/
def GetClientForTool (figaro : Figaro) (toolName : String) : Option MCPClient :=
  figaro.clients.find? (fun c => c.ContainsTool toolName)

/-- One slot write `result[i] = tool`; Go panics when the index is out of
range, modelled by `none`. -/
def setAt (xs : List Tool) (i : Nat) (t : Tool) : Option (List Tool) :=
  if i < xs.length then some (xs.set i t) else none

/-- The cache-miss computation of `Figaro.GetAllTools`: allocate
`cumToolSize` zero-valued slots, then for client index `i` and tool index `j`
write the tool at slot `i + j` (exactly as the source indexes `result[i+j]`).
`none` models the Go index-out-of-range panic. -/
def GetAllToolsCompute (clients : List MCPClient) : Option (List Tool) :=
  let cumToolSize := (clients.map (fun c => c.tools.length)).sum
  clients.enum.foldl
    (fun acc p =>
      p.2.tools.enum.foldl
        (fun acc2 q => acc2.bind (fun xs => setAt xs (p.1 + q.1) q.2))
        acc)
    (some (List.replicate cumToolSize defaultTool))

/-- `Figaro.GetAllTools`: return the cache when present, otherwise compute,
store and return. The returned `Figaro` carries the updated cache. -/
def GetAllTools (figaro : Figaro) : Option (List Tool × Figaro) :=
  match figaro.toolsCache with
  | some cached => some (cached, figaro)
  | none =>
      (GetAllToolsCompute figaro.clients).map
        (fun r => (r, { figaro with toolsCache := some r }))

/-- What the spec says `GetAllTools` computes: the concatenation of the
clients' cached tool lists in registration order. -/
def GetAllToolsSpec (clients : List MCPClient) : List Tool :=
  (clients.map (fun c => c.tools)).flatten

/-- Helper: after a successful `GetAllTools` call the cache holds the
returned list and the client list is unchanged. -/
theorem getAllTools_cache {f : Figaro} {r : List Tool} {f1 : Figaro}
    (h : GetAllTools f = some (r, f1)) :
    f1.toolsCache = some r ∧ f1.clients = f.clients := by
  unfold GetAllTools at h
  cases hc : f.toolsCache with
  | some cached =>
      rw [hc] at h
      cases h
      exact ⟨hc, rfl⟩
  | none =>
      rw [hc] at h
      cases hg : GetAllToolsCompute f.clients with
      | none => rw [hg] at h; simp [Option.map] at h
      | some res =>
          rw [hg] at h
          simp only [Option.map] at h
          cases h
          exact ⟨rfl, rfl⟩

/-- Sample tools for concrete runs. -/
def toolA : Tool := ⟨"alpha", "first tool", Json.obj []⟩

def toolB : Tool := ⟨"beta", "second tool", Json.obj []⟩

def toolC : Tool := ⟨"gamma", "third tool", Json.obj []⟩

/-- A trivial `tools/call` oracle used by concrete runs. -/
def okSend : String → List (String × Json) → Except String RpcMessage :=
  fun _ _ => Except.ok ⟨Json.str "ok"⟩

/-- Client owning `alpha` and `beta`. -/
def clientAB : MCPClient :=
  ⟨"srvAB", [toolA, toolB], fun n => n == "alpha" || n == "beta", okSend⟩

/-- Client owning `gamma`. -/
def clientC : MCPClient :=
  ⟨"srvC", [toolC], fun n => n == "gamma", okSend⟩

/-- C2: For every list of registered MCP clients, GetAllTools returns exactly
the concatenation of the cached tool lists of every client in registration
order. The code indexes the output array by client-index plus tool-index
instead of a running offset, so with clients holding `[alpha, beta]` and
`[gamma]` it returns `[alpha, gamma, zero-tool]` rather than
`[alpha, beta, gamma]`: `beta` is overwritten and a zero-valued descriptor is
left in the last slot. -/
theorem c2_getAllTools_drops_tools :
    GetAllToolsCompute [clientAB, clientC] = some [toolA, toolC, defaultTool] ∧
    GetAllToolsSpec [clientAB, clientC] = [toolA, toolB, toolC] ∧
    GetAllToolsCompute [clientAB, clientC] ≠
      some (GetAllToolsSpec [clientAB, clientC]) := by
  refine ⟨rfl, rfl, ?_⟩
  intro h
  have h2 : (some [toolA, toolC, defaultTool] : Option (List Tool)) =
      some [toolA, toolB, toolC] := h
  simp [toolA, toolB, toolC, defaultTool] at h2

/-- C10: GetAllTools is idempotent and freezes the catalogue: the first call
stores its result in the cache, and every subsequent call returns that cached
list unchanged, regardless of any change to the clients in between. -/
theorem c10_getAllTools_idempotent_cache
    (f : Figaro) (r : List Tool) (f1 : Figaro) (cs : List MCPClient)
    (h : GetAllTools f = some (r, f1)) :
    f1.toolsCache = some r ∧
    GetAllTools { f1 with clients := cs } =
      some (r, { f1 with clients := cs }) := by
  have hc := (getAllTools_cache h).1
  refine ⟨hc, ?_⟩
  unfold GetAllTools
  simp [hc]

/-- Closed witness for C10 at a concrete registry. -/
theorem c10_witness :
    ∃ r f1, GetAllTools ⟨[clientC], none⟩ = some (r, f1) ∧
      f1.toolsCache = some r ∧
      GetAllTools { f1 with clients := [clientAB] } =
        some (r, { f1 with clients := [clientAB] }) := by
  refine ⟨[toolC], ⟨[clientC], some [toolC]⟩, rfl, ?_⟩
  exact c10_getAllTools_idempotent_cache ⟨[clientC], none⟩ [toolC]
    ⟨[clientC], some [toolC]⟩ [clientAB] rfl

/-- Assistant message content blocks as dispatched by the agent loop.
`callTools` only inspects `tool_use` blocks; all other SDK variants behave
like `text` there (skipped by the switch). -/
inductive ContentBlock where
  | text (s : String)
  | toolUse (id name : String) (input : Json)

/-- `anthropic.ContentBlockParamUnion` as used by `figaro.go`: text blocks,
tool-use blocks and tool-result blocks. -/
inductive BlockParam where
  | text (s : String)
  | toolUse (id name : String) (input : Json)
  | toolResult (toolUseId : String) (content : String)

/-- `anthropic.MessageParam`: a conversation turn. -/
structure MessageParam where
  role : String
  content : List BlockParam

/-- `ContentBlock.ToParam`. -/
def ContentBlock.toParam : ContentBlock → BlockParam
  | .text s => .text s
  | .toolUse id name input => .toolUse id name input

/-- The assembled assistant message (`anthropic.Message`): id, content
blocks and stop reason. -/
structure AMessage where
  id : String
  content : List ContentBlock
  stopReason : String

/-- Event types pushed on the update channel. -/
inductive EventType where
  | taskStarted
  | taskCompleted
  | taskFailed
  | messageStarted
  | messagePart
  | messageEnded
deriving DecidableEq

/-- An `Event` as pushed on the update channel (`Type`, `Data`, `MessageID`). -/
structure EventM where
  type : EventType
  data : String
  messageId : String
deriving DecidableEq

/-- The delta-processing part of `Figaro.handleStream`: for each progress
delta the source emits `MessageStarted` when `hasStarted` is false and
`MessagePart` otherwise, and it never assigns `hasStarted = true`, so the
flag is passed through unchanged. -/
def handleStreamDeltas : Bool → List String → List EventM
  | _, [] => []
  | hasStarted, d :: rest =>
      (if hasStarted then EventM.mk .messagePart d "" else EventM.mk .messageStarted d "") ::
        handleStreamDeltas hasStarted rest

/-- `Figaro.handleStream` on a stream that yields its deltas and then its
result: the per-delta events followed by `MessageEnded` carrying the
message id. -/
def handleStream (deltas : List String) (resultId : String) : List EventM :=
  handleStreamDeltas false deltas ++ [EventM.mk .messageEnded "" resultId]

/-- `anyToString`: Go's conversion of the `any` result to text (strings pass
through; maps and slices are re-marshalled; other values use `%v`). -/
def anyToString (v : Json) : String :=
  match v with
  | .str s => s
  | .obj _ => jsonSerialize v
  | .arr _ => jsonSerialize v
  | .num n => toString n
  | .bool b => if b then "true" else "false"
  | .null => "<nil>"

/-- `createToolResultBlock`. -/
def createToolResultBlock (id : String) (toolResponse : RpcMessage) : BlockParam :=
  BlockParam.toolResult id (anyToString toolResponse.result)

/-- `createMessageParam`. -/
def createMessageParam (input : String) (role : String) : MessageParam :=
  ⟨role, [BlockParam.text input]⟩

/-- `appendMessage`: append the assistant turn built from the message. -/
def appendMessage (conversation : List MessageParam) (message : AMessage) :
    List MessageParam :=
  conversation ++ [⟨"assistant", message.content.map ContentBlock.toParam⟩]

/-- `json.Unmarshal(variant.Input, &args)` into `map[string]any`: succeeds
on a JSON object, and also on JSON null, which Go decodes into a nil map
with no error (the nil map is modelled as the empty field list); every
other JSON value fails to unmarshal into a map. -/
def unmarshalObject : Json → Option (List (String × Json))
  | .obj fields => some fields
  | .null => some []
  | _ => none

/-- Insertion into the Go map `tools[variant.ID] = *response`
(overwrite on duplicate id; iteration modelled in insertion order). -/
def mapInsert (m : List (String × RpcMessage)) (k : String) (v : RpcMessage) :
    List (String × RpcMessage) :=
  if m.any (fun p => p.1 == k) then m.map (fun p => if p.1 == k then (k, v) else p)
  else m ++ [(k, v)]

/-- Errors produced by the embedded Go code, one constructor per
`fmt.Errorf` site or propagated failure. -/
inductive GoError where
  | noClientForTool (name : String)
  | unmarshalError
  | sendError (msg : String)
  | streamError (msg : String)
  | iterationExhausted
deriving DecidableEq

/-- `shouldDisrupt`: an error object iff the agent loop should stop. -/
def shouldDisrupt (i : Nat) : Option GoError :=
  if i < 10 then none else some GoError.iterationExhausted

/-- The block-by-block body of `callTools`: resolve the client, unmarshal
the arguments, issue `tools/call`, store the response under the tool-use id;
any failure is returned immediately as an error. -/
def callToolsGo (figaro : Figaro) :
    List ContentBlock → List (String × RpcMessage) →
    Except GoError (List (String × RpcMessage))
  | [], acc => Except.ok acc
  | ContentBlock.text _ :: rest, acc => callToolsGo figaro rest acc
  | ContentBlock.toolUse id name input :: rest, acc =>
    match GetClientForTool figaro name with
    | none => Except.error (GoError.noClientForTool name)
    | some client =>
      match unmarshalObject input with
      | none => Except.error GoError.unmarshalError
      | some args =>
        match client.sendTool name args with
        | Except.error e => Except.error (GoError.sendError e)
        | Except.ok response => callToolsGo figaro rest (mapInsert acc id response)

/-- `callTools`. -/
def callTools (figaro : Figaro) (message : AMessage) :
    Except GoError (List (String × RpcMessage)) :=
  callToolsGo figaro message.content []

/-- The Anthropic model id hardcoded in `GetMessageNewParams`
(`anthropic.ModelClaude3_7SonnetLatest`). -/
def ModelClaude3_7SonnetLatest : String := "claude-3-7-sonnet-latest"

/-- Modelled from the spec: `anthropicbridge.GetAnthropicTools` (the
`anthropicbridge` package is not under `src/`) maps MCP tool descriptors
1:1 into the vendor tool shape — name, description and input schema flow
through unchanged — so it is the identity on descriptors here. -/
def GetAnthropicTools (tools : List Tool) : List Tool := tools

/-- `anthropic.MessageNewParams` as built by `GetMessageNewParams`. -/
structure MessageNewParams where
  maxTokens : Nat
  messages : List MessageParam
  model : String
  tools : List Tool

/-- `GetMessageNewParams`: note the model id is the hardcoded constant,
independent of any flag. -/
def GetMessageNewParams (conversation : List MessageParam) (tools : List Tool) :
    MessageNewParams :=
  ⟨1024, conversation, ModelClaude3_7SonnetLatest, GetAnthropicTools tools⟩

/-- Oracles for one run: `llm k` is the outcome of the `k`-th LLM stream
(its progress deltas and assembled message, or a stream error) and
`writeOk wk` is whether the `wk`-th `writeHostFile` call succeeds. -/
structure LoopEnv where
  llm : Nat → Except String (List String × AMessage)
  writeOk : Nat → Bool

/-- Observable outcome of a run: the final result, the LLM requests issued
(in order), the conversations passed to `writeHostFile` (in order), and the
logged write failures. -/
inductive RunResult where
  | panicked
  | err (e : GoError)
  | ok (conversation : List MessageParam)

structure LoopOut where
  result : RunResult
  requests : List MessageNewParams
  writes : List (List MessageParam)
  logs : List String

/-- The body of `Figaro.agentLoop`, with an explicit fuel argument as the
termination measure. The wrapper `agentLoop` below always passes
`fuel = 10 - i`, so the fuel-0 arm coincides with `shouldDisrupt`
returning the iteration error at `i ≥ 10` and is never reached for
`i < 10`. Per iteration, in source order: `shouldDisrupt`, the
`tool_use` check, `callTools`, the synthetic user turn of tool results,
`streamMessage` (which calls `GetAllTools` — `none` models its index panic —
then builds the request and appends the assistant turn), `writeHostFile`
whose failure is only logged, then `i++` and the next iteration. -/
def agentLoopGo (env : LoopEnv) :
    Nat → Figaro → AMessage → List MessageParam → Nat → Nat → Nat → LoopOut
  | 0, _, _, _, _, _, _ =>
      ⟨RunResult.err GoError.iterationExhausted, [], [], []⟩
  | fuel + 1, fig, message, conversation, i, k, wk =>
    match shouldDisrupt i with
    | some e => ⟨RunResult.err e, [], [], []⟩
    | none =>
      if message.stopReason = "tool_use" then
        match callTools fig message with
        | Except.error e => ⟨RunResult.err e, [], [], []⟩
        | Except.ok toolResponses =>
          let toolResults := toolResponses.map (fun p => createToolResultBlock p.1 p.2)
          let conv1 := conversation ++ [MessageParam.mk "user" toolResults]
          match GetAllTools fig with
          | none => ⟨RunResult.panicked, [], [], []⟩
          | some (tools, fig1) =>
            let params := GetMessageNewParams conv1 tools
            match env.llm k with
            | Except.error e => ⟨RunResult.err (GoError.streamError e), [params], [], []⟩
            | Except.ok (_, message1) =>
              let conv2 := appendMessage conv1 message1
              let writeLog := if env.writeOk wk then [] else ["write failed"]
              let rest := agentLoopGo env fuel fig1 message1 conv2 (i + 1) (k + 1) (wk + 1)
              ⟨rest.result, params :: rest.requests, conv2 :: rest.writes,
                writeLog ++ rest.logs⟩
      else ⟨RunResult.ok conversation, [], [], []⟩

/-- `Figaro.agentLoop` starting at iteration counter `i`, with `k` the index
of the next LLM stream and `wk` the index of the next write. -/
def agentLoop (env : LoopEnv) (fig : Figaro) (message : AMessage)
    (conversation : List MessageParam) (i k wk : Nat) : LoopOut :=
  agentLoopGo env (10 - i) fig message conversation i k wk

/-- `Figaro.Request` (after a successful Anthropic client init): build the
user turn from the space-joined arguments, stream the first assistant turn,
then run the agent loop. `modePtr` is the `-m` flag value, which the source
receives and never reads. -/
def RequestRun (env : LoopEnv) (fig : Figaro) (args : List String)
    (modePtr : String) : LoopOut :=
  let input := String.intercalate " " args
  let conversation := [createMessageParam input "user"]
  match GetAllTools fig with
  | none => ⟨RunResult.panicked, [], [], []⟩
  | some (tools, fig1) =>
    let params := GetMessageNewParams conversation tools
    match env.llm 0 with
    | Except.error e => ⟨RunResult.err (GoError.streamError e), [params], [], []⟩
    | Except.ok (_, message) =>
      let conv1 := appendMessage conversation message
      let rest := agentLoop env fig1 message conv1 0 1 0
      ⟨rest.result, params :: rest.requests, rest.writes, rest.logs⟩

/-- Process termination: a normal exit code or a runtime panic. -/
inductive ProcExit where
  | code (n : Nat)
  | panicked
deriving DecidableEq

/-- The parsed `~/.figaro/servers.json` registry (field values are irrelevant
to the exit-code behaviour). -/
structure ServerRegistryM where
  dockerServers : List String

/-- `main` from `src/main.go`: a `getServers` error is only logged and the
nil `servers` pointer is then dereferenced at `*servers` (runtime panic); a
`SummonFigaro` error returns `nil, nil, err`, so the `defer cancel(ctx.Err())`
right after the call saves a nil function value, which panics when invoked at
`main`'s return — the error is never logged; with no positional arguments
`main` logs and returns (0); a `Request` error is logged and `main` returns
(0); success returns (0). No path calls `os.Exit`. -/
def mainFull (servers : Except String ServerRegistryM)
    (summon : Except String Figaro) (env : LoopEnv) (args : List String)
    (modePtr : String) : ProcExit :=
  match servers with
  | Except.error _ => ProcExit.panicked
  | Except.ok _ =>
    match summon with
    | Except.error _ => ProcExit.panicked
    | Except.ok fig =>
      match args with
      | [] => ProcExit.code 0
      | _ :: _ =>
        match (RequestRun env fig args modePtr).result with
        | RunResult.panicked => ProcExit.panicked
        | RunResult.err _ => ProcExit.code 0
        | RunResult.ok _ => ProcExit.code 0

/-- The `echo` tool of the end-to-end scenarios. -/
def echoTool : Tool := ⟨"echo", "echoes text", Json.obj []⟩

/-- A client owning only `echo`. -/
def echoClient : MCPClient := ⟨"srv", [echoTool], fun n => n == "echo", okSend⟩

/-- A registry with the single `echo` client and a cold tool cache. -/
def figEcho : Figaro := ⟨[echoClient], none⟩

/-- Assistant message requesting one `echo` call with object arguments. -/
def msgToolUse : AMessage :=
  ⟨"mid", [ContentBlock.toolUse "u1" "echo" (Json.obj [("text", Json.str "foo")])], "tool_use"⟩

/-- Assistant message that stops without requesting a tool. -/
def msgEnd : AMessage := ⟨"mEnd", [ContentBlock.text "Hello!"], "end_turn"⟩

/-- LLM oracle that always requests another `echo` call. -/
def envToolUse : LoopEnv := ⟨fun _ => Except.ok ([], msgToolUse), fun _ => true⟩

/-- LLM oracle that answers with plain text at once. -/
def envEnd : LoopEnv := ⟨fun _ => Except.ok (["Hello!"], msgEnd), fun _ => true⟩

/-- LLM oracle whose stream always fails. -/
def envFail : LoopEnv := ⟨fun _ => Except.error "connection reset", fun _ => true⟩

/-- Unfolding `agentLoopGo` at zero fuel (reached exactly when `i ≥ 10`). -/
theorem agentLoopGo_zero (env : LoopEnv) (fig : Figaro) (msg : AMessage)
    (conv : List MessageParam) (i k wk : Nat) :
    agentLoopGo env 0 fig msg conv i k wk =
      ⟨RunResult.err GoError.iterationExhausted, [], [], []⟩ := rfl

/-- Unfolding one non-disrupted iteration of `agentLoopGo`. -/
theorem agentLoopGo_succ (env : LoopEnv) (fuel : Nat) (fig : Figaro)
    (msg : AMessage) (conv : List MessageParam) (i k wk : Nat) (hi : i < 10) :
    agentLoopGo env (fuel + 1) fig msg conv i k wk =
      if msg.stopReason = "tool_use" then
        match callTools fig msg with
        | Except.error e => ⟨RunResult.err e, [], [], []⟩
        | Except.ok toolResponses =>
          let conv1 := conv ++ [MessageParam.mk "user"
            (toolResponses.map (fun p => createToolResultBlock p.1 p.2))]
          match GetAllTools fig with
          | none => ⟨RunResult.panicked, [], [], []⟩
          | some (tools, fig1) =>
            let params := GetMessageNewParams conv1 tools
            match env.llm k with
            | Except.error e => ⟨RunResult.err (GoError.streamError e), [params], [], []⟩
            | Except.ok (_, message1) =>
              let conv2 := appendMessage conv1 message1
              let rest := agentLoopGo env fuel fig1 message1 conv2 (i + 1) (k + 1) (wk + 1)
              ⟨rest.result, params :: rest.requests, conv2 :: rest.writes,
                (if env.writeOk wk then [] else ["write failed"]) ++ rest.logs⟩
      else ⟨RunResult.ok conv, [], [], []⟩ := by
  have hs : shouldDisrupt i = none := by simp [shouldDisrupt, hi]
  simp only [agentLoopGo, hs]

/-- The first `tool_use` block of a content list, if any. -/
def firstToolUse : List ContentBlock → Option (String × String × Json)
  | [] => none
  | ContentBlock.text _ :: rest => firstToolUse rest
  | ContentBlock.toolUse id name input :: _ => some (id, name, input)

/-- If no registered client contains the name, `GetClientForTool` is `none`. -/
theorem getClientForTool_none (fig : Figaro) (n : String)
    (h : ∀ c ∈ fig.clients, c.ContainsTool n = false) :
    GetClientForTool fig n = none := by
  unfold GetClientForTool
  refine List.find?_eq_none.mpr ?_
  intro c hc
  simp [h c hc]

/-- `callTools` fails with the no-client error of the first `tool_use`
block when its name resolves to no client. -/
theorem callToolsGo_unknown (fig : Figaro) (idv n : String) (inp : Json)
    (hn : GetClientForTool fig n = none) :
    ∀ content acc, firstToolUse content = some (idv, n, inp) →
      callToolsGo fig content acc = Except.error (GoError.noClientForTool n) := by
  intro content
  induction content with
  | nil => intro acc h; simp [firstToolUse] at h
  | cons b rest ih =>
    intro acc h
    cases b with
    | text s =>
        simp only [firstToolUse] at h
        simpa only [callToolsGo] using ih acc h
    | toolUse id2 n2 inp2 =>
        simp only [firstToolUse, Option.some.injEq, Prod.mk.injEq] at h
        obtain ⟨-, h2, -⟩ := h
        subst h2
        simp [callToolsGo, hn]

/-- C3: For every assistant stream yielding n ≥ 2 progress deltas before its
result, the spec expects message_started for the first delta, message_part
for each subsequent delta, and message_ended on the result. The source never
sets `hasStarted`, so every delta is emitted as message_started: on the
two-delta stream `["Hel", "lo!"]` the events are message_started,
message_started, message_ended, not the claimed
message_started, message_part, message_ended. -/
theorem c3_handleStream_all_deltas_message_started :
    handleStream ["Hel", "lo!"] "msg_1" =
      [EventM.mk .messageStarted "Hel" "", EventM.mk .messageStarted "lo!" "",
        EventM.mk .messageEnded "" "msg_1"] ∧
    (handleStream ["Hel", "lo!"] "msg_1").map EventM.type ≠
      [EventType.messageStarted, EventType.messagePart, EventType.messageEnded] := by
  exact ⟨rfl, by decide⟩

/-- C6: The spec claims the model id given by the `-m` flag is used in every
LLM chat request. In the source the flag value is threaded to `Request` as
`modePtr` and never read: `RequestRun` is constant in it, every request
carries the hardcoded `ModelClaude3_7SonnetLatest`, and a run invoked with
flag value `claude-opus-4-20250514` still issues only requests for the
hardcoded model. -/
theorem c6_model_flag_ignored :
    (∀ env fig args m1 m2, RequestRun env fig args m1 = RequestRun env fig args m2) ∧
    (∀ conversation tools,
      (GetMessageNewParams conversation tools).model = ModelClaude3_7SonnetLatest) ∧
    (RequestRun envEnd figEcho ["say", "hi"] "claude-opus-4-20250514").requests.map
        MessageNewParams.model = [ModelClaude3_7SonnetLatest] ∧
    ModelClaude3_7SonnetLatest ≠ "claude-opus-4-20250514" := by
  refine ⟨fun _ _ _ _ _ => rfl, fun _ _ => rfl, rfl, by decide⟩

/-- C7 counterexample: the claim says any fatal error exits with code 1. On a
run whose LLM stream fails (a transport-layer failure of the user turn),
`main` logs the error and returns: the process exits with code 0, not 1. -/
theorem c7_counterexample :
    (RequestRun envFail figEcho ["hi"] "m").result =
      RunResult.err (GoError.streamError "connection reset") ∧
    mainFull (Except.ok ⟨[]⟩) (Except.ok figEcho) envFail ["hi"] "m" = ProcExit.code 0 ∧
    ProcExit.code 0 ≠ ProcExit.code 1 := by
  exact ⟨rfl, rfl, by decide⟩

/-- C7 amended: the process exits 0 on success and on agent-loop failures,
which are only logged; no path exits with code 1; a configuration load
failure is logged and then `*servers` dereferences the nil pointer (runtime
panic), and a `SummonFigaro` failure leaves `cancel` nil, so the deferred
`cancel(ctx.Err())` panics when invoked at `main`'s return, the error never
being logged. -/
theorem c7_amended_exit_codes :
    (∀ servers summon env args m, mainFull servers summon env args m ≠ ProcExit.code 1) ∧
    (∀ e summon env args m,
      mainFull (Except.error e) summon env args m = ProcExit.panicked) ∧
    (∀ r e env args m,
      mainFull (Except.ok r) (Except.error e) env args m = ProcExit.panicked) ∧
    (∀ r fig env args m e, args ≠ [] →
      (RequestRun env fig args m).result = RunResult.err e →
      mainFull (Except.ok r) (Except.ok fig) env args m = ProcExit.code 0) := by
  refine ⟨?_, fun _ _ _ _ _ => rfl, fun _ _ _ _ _ => rfl, ?_⟩
  · intro servers summon env args m h
    unfold mainFull at h
    repeat' split at h
    all_goals simp_all
  · intro r fig env args m e hargs hres
    cases args with
    | nil => exact absurd rfl hargs
    | cons a rest => simp only [mainFull, hres]

/-- Closed witness for C7's amended theorem at a failing concrete run. -/
theorem c7_amended_witness :
    (["hi"] : List String) ≠ [] ∧
    (RequestRun envFail figEcho ["hi"] "m").result =
      RunResult.err (GoError.streamError "connection reset") ∧
    mainFull (Except.ok ⟨["reg"]⟩) (Except.ok figEcho) envFail ["hi"] "m" =
      ProcExit.code 0 := by
  refine ⟨by decide, rfl, ?_⟩
  exact c7_amended_exit_codes.2.2.2 ⟨["reg"]⟩ figEcho envFail ["hi"] "m"
    (GoError.streamError "connection reset") (by decide) rfl

/-- Helper: when `callTools` fails, one loop iteration returns the error at
once, issuing no request and writing nothing. -/
theorem agentLoop_callTools_error (env : LoopEnv) (fig : Figaro) (msg : AMessage)
    (conv : List MessageParam) (i k wk : Nat) (e : GoError) (hi : i < 10)
    (hstop : msg.stopReason = "tool_use")
    (herr : callTools fig msg = Except.error e) :
    agentLoop env fig msg conv i k wk = ⟨RunResult.err e, [], [], []⟩ := by
  unfold agentLoop
  have hf : 10 - i = (10 - (i + 1)) + 1 := by omega
  rw [hf, agentLoopGo_succ env (10 - (i + 1)) fig msg conv i k wk hi]
  rw [if_pos hstop, herr]

/-- Assistant message using `echo` with a non-object, non-null (string)
input, i.e. bad arguments. -/
def msgBadArgs : AMessage :=
  ⟨"m1", [ContentBlock.toolUse "u1" "echo" (Json.str "foo")], "tool_use"⟩

/-- Assistant message using `echo` with JSON null input: Go unmarshals null
into a nil map with no error, so this is not a bad-arguments failure. -/
def msgNullArgs : AMessage :=
  ⟨"m1", [ContentBlock.toolUse "u1" "echo" Json.null], "tool_use"⟩

/-- C1 counterexample: the spec claims a tool invocation error (bad
arguments included) is converted to a tool_result block and the loop
continues. On a `tool_use` block whose input is not a JSON object,
`callTools` returns the unmarshal error and the agent loop terminates with
it at once: no tool_result block, no further LLM stream, no write. -/
theorem c1_counterexample :
    callTools figEcho msgBadArgs = Except.error GoError.unmarshalError ∧
    agentLoop envEnd figEcho msgBadArgs [createMessageParam "echo foo" "user"] 0 1 0 =
      ⟨RunResult.err GoError.unmarshalError, [], [], []⟩ := by
  exact ⟨rfl, rfl⟩

/-- C1 amended: tool invocation errors inside the loop are fatal, not local:
whenever `callTools` fails (unknown tool, arguments that fail to unmarshal
into a map — any input other than a JSON object or JSON null — or a
SendMessage error) the agent loop returns that error immediately, issuing no
further LLM stream and writing nothing; only successful `tools/call`
responses are converted to tool_result blocks, which form the synthetic user
turn carried by the next LLM request; a null-input block is not an error:
the call is issued with nil arguments. -/
theorem c1_amended_tool_errors_fatal :
    (∀ env fig msg conv i k wk e, i < 10 → msg.stopReason = "tool_use" →
      callTools fig msg = Except.error e →
      agentLoop env fig msg conv i k wk = ⟨RunResult.err e, [], [], []⟩) ∧
    (∀ env fig msg conv i k wk toolResponses tools fig1, i < 10 →
      msg.stopReason = "tool_use" →
      callTools fig msg = Except.ok toolResponses →
      GetAllTools fig = some (tools, fig1) →
      (agentLoop env fig msg conv i k wk).requests.head? =
        some (GetMessageNewParams
          (conv ++ [MessageParam.mk "user"
            (toolResponses.map (fun p => createToolResultBlock p.1 p.2))])
          tools)) ∧
    callTools figEcho msgNullArgs =
      Except.ok [("u1", RpcMessage.mk (Json.str "ok"))] := by
  refine ⟨?_, ?_, rfl⟩
  · intro env fig msg conv i k wk e hi hstop herr
    exact agentLoop_callTools_error env fig msg conv i k wk e hi hstop herr
  · intro env fig msg conv i k wk toolResponses tools fig1 hi hstop hok hga
    unfold agentLoop
    have hf : 10 - i = (10 - (i + 1)) + 1 := by omega
    rw [hf, agentLoopGo_succ env (10 - (i + 1)) fig msg conv i k wk hi]
    rw [if_pos hstop, hok]
    simp only [hga]
    cases env.llm k with
    | error e => rfl
    | ok pr => rfl

/-- Closed witness for C1's amended theorem: the error half at the
bad-arguments run, the success half at an `echo` round trip. -/
theorem c1_amended_witness :
    agentLoop envEnd figEcho msgBadArgs [createMessageParam "echo foo" "user"] 0 1 0 =
      ⟨RunResult.err GoError.unmarshalError, [], [], []⟩ ∧
    (agentLoop envEnd figEcho msgToolUse [createMessageParam "echo foo" "user"] 0 1 0).requests.head? =
      some (GetMessageNewParams
        ([createMessageParam "echo foo" "user"] ++ [MessageParam.mk "user"
          [createToolResultBlock "u1" ⟨Json.str "ok"⟩]])
        [echoTool]) := by
  constructor
  · exact c1_amended_tool_errors_fatal.1 envEnd figEcho msgBadArgs
      [createMessageParam "echo foo" "user"] 0 1 0 GoError.unmarshalError
      (by decide) rfl rfl
  · exact c1_amended_tool_errors_fatal.2.1 envEnd figEcho msgToolUse
      [createMessageParam "echo foo" "user"] 0 1 0
      [("u1", ⟨Json.str "ok"⟩)] [echoTool] ⟨[echoClient], some [echoTool]⟩
      (by decide) rfl rfl rfl

/-- Assistant message requesting the unregistered tool `nope`. -/
def msgNope : AMessage :=
  ⟨"m1", [ContentBlock.toolUse "u1" "nope" (Json.obj [])], "tool_use"⟩

/-- LLM oracle whose first stream requests the unknown tool `nope`. -/
def envNope : LoopEnv := ⟨fun _ => Except.ok ([], msgNope), fun _ => true⟩

/-- C5 counterexample: on a `tool_use` block naming `nope`, which no client
contains, the loop does fail fatally with the no-client error, but `main`
only logs it and returns: the process exits with code 0, not the claimed
code 1. -/
theorem c5_counterexample :
    (RequestRun envNope figEcho ["run", "nope"] "m").result =
      RunResult.err (GoError.noClientForTool "nope") ∧
    mainFull (Except.ok ⟨[]⟩) (Except.ok figEcho) envNope ["run", "nope"] "m" =
      ProcExit.code 0 ∧
    ProcExit.code 0 ≠ ProcExit.code 1 := by
  exact ⟨rfl, rfl, by decide⟩

/-- C5 amended: if the first `tool_use` block of the assistant turn names a
tool contained by no registered client, the agent loop fails fatally with
the error `Could not find mcp client for <name>` — no tool_result is
produced, no further LLM stream is issued, nothing is written, and the
iteration bound is not what triggers the failure — and `main` logs the
error and exits with code 0. -/
theorem c5_amended_unknown_tool_fatal_exit0
    (env : LoopEnv) (fig : Figaro) (ts : List Tool) (fig1 : Figaro)
    (args : List String) (m : String) (ds : List String) (msg1 : AMessage)
    (idv n : String) (inp : Json) (reg : ServerRegistryM)
    (hargs : args ≠ [])
    (hg : GetAllTools fig = some (ts, fig1))
    (hl : env.llm 0 = Except.ok (ds, msg1))
    (hstop : msg1.stopReason = "tool_use")
    (hfirst : firstToolUse msg1.content = some (idv, n, inp))
    (hnone : ∀ c ∈ fig.clients, c.ContainsTool n = false) :
    (RequestRun env fig args m).result = RunResult.err (GoError.noClientForTool n) ∧
    (RequestRun env fig args m).requests.length = 1 ∧
    (RequestRun env fig args m).writes = [] ∧
    GoError.noClientForTool n ≠ GoError.iterationExhausted ∧
    mainFull (Except.ok reg) (Except.ok fig) env args m = ProcExit.code 0 := by
  have hcl : fig1.clients = fig.clients := (getAllTools_cache hg).2
  have hnone1 : ∀ c ∈ fig1.clients, c.ContainsTool n = false := by
    rw [hcl]; exact hnone
  have hgc : GetClientForTool fig1 n = none := getClientForTool_none fig1 n hnone1
  have hct : callTools fig1 msg1 = Except.error (GoError.noClientForTool n) :=
    callToolsGo_unknown fig1 idv n inp hgc msg1.content [] hfirst
  have hloop := agentLoop_callTools_error env fig1 msg1
    (appendMessage [createMessageParam (String.intercalate " " args) "user"] msg1)
    0 1 0 (GoError.noClientForTool n) (by omega) hstop hct
  have hrr : RequestRun env fig args m =
      ⟨RunResult.err (GoError.noClientForTool n),
        [GetMessageNewParams [createMessageParam (String.intercalate " " args) "user"] ts],
        [], []⟩ := by
    unfold RequestRun
    simp only [hg, hl, hloop]
  refine ⟨by rw [hrr], by rw [hrr]; rfl, by rw [hrr], by simp, ?_⟩
  cases args with
  | nil => exact absurd rfl hargs
  | cons a rest => simp only [mainFull, hrr]

/-- Closed witness for C5's amended theorem at the `nope` run. -/
theorem c5_amended_witness :
    (RequestRun envNope figEcho ["run"] "m").result =
      RunResult.err (GoError.noClientForTool "nope") ∧
    mainFull (Except.ok ⟨[]⟩) (Except.ok figEcho) envNope ["run"] "m" =
      ProcExit.code 0 := by
  have h := c5_amended_unknown_tool_fatal_exit0 envNope figEcho [echoTool]
    ⟨[echoClient], some [echoTool]⟩ ["run"] "m" [] msgNope "u1" "nope"
    (Json.obj []) ⟨[]⟩ (by decide) rfl rfl rfl rfl
    (by
      intro c hc
      simp only [figEcho, List.mem_singleton] at hc
      subst hc
      rfl)
  exact ⟨h.1, h.2.2.2.2⟩

/-- When the cache is already populated, `GetAllTools` returns it and leaves
the state unchanged. -/
theorem getAllTools_of_cache (fig : Figaro) (ts : List Tool)
    (hcache : fig.toolsCache = some ts) :
    GetAllTools fig = some (ts, fig) := by
  unfold GetAllTools
  rw [hcache]

/-- When every LLM stream answers with a `tool_use` message whose tool calls
succeed, the loop runs `fuel = 10 - i` full iterations, issues one stream
each, and then fails with the iteration error. -/
theorem agentLoopGo_allToolUse (env : LoopEnv) (fig : Figaro) (ts : List Tool)
    (hcache : fig.toolsCache = some ts)
    (hllm : ∀ j, ∃ ds m, env.llm j = Except.ok (ds, m) ∧
      m.stopReason = "tool_use" ∧ ∃ rs, callTools fig m = Except.ok rs) :
    ∀ fuel i, fuel = 10 - i → ∀ msg conv k wk, msg.stopReason = "tool_use" →
      (∃ rs, callTools fig msg = Except.ok rs) →
      (agentLoopGo env fuel fig msg conv i k wk).result =
        RunResult.err GoError.iterationExhausted ∧
      (agentLoopGo env fuel fig msg conv i k wk).requests.length = fuel := by
  intro fuel
  induction fuel with
  | zero => intro i hf msg conv k wk hstop hct; exact ⟨rfl, rfl⟩
  | succ fuel ih =>
    intro i hf msg conv k wk hstop hct
    have hi : i < 10 := by omega
    obtain ⟨rs, hcs⟩ := hct
    have hga : GetAllTools fig = some (ts, fig) := getAllTools_of_cache fig ts hcache
    obtain ⟨ds, m1, hl, hstop1, hct1⟩ := hllm k
    rw [agentLoopGo_succ env fuel fig msg conv i k wk hi, if_pos hstop, hcs]
    simp only [hga, hl]
    have hrec := ih (i + 1) (by omega) m1
      (appendMessage
        (conv ++ [MessageParam.mk "user" (rs.map (fun p => createToolResultBlock p.1 p.2))])
        m1)
      (k + 1) (wk + 1) hstop1 hct1
    exact ⟨hrec.1, by simp [hrec.2]⟩

/-- C4 counterexample: with every stream answering `tool_use`, the run
issues eleven LLM streams — the initial one in `Request` plus ten inside the
loop — before failing with the iteration error, contradicting the claimed
bound of at most ten streams per request. -/
theorem c4_counterexample :
    (RequestRun envToolUse figEcho ["go"] "m").requests.length = 11 ∧
    10 < (RequestRun envToolUse figEcho ["go"] "m").requests.length ∧
    (RequestRun envToolUse figEcho ["go"] "m").result =
      RunResult.err GoError.iterationExhausted := by
  refine ⟨rfl, ?_, rfl⟩
  rw [show (RequestRun envToolUse figEcho ["go"] "m").requests.length = 11 from rfl]
  omega

/-- C4 amended: when every assistant turn stops with `tool_use` (and the
tool calls succeed), the agent loop fails with the iteration-bound error at
iteration 10, before issuing its 11th in-loop stream; counting the initial
stream issued by `Request` before the loop, exactly 11 LLM streams are
started for the request. -/
theorem c4_amended_eleven_streams (env : LoopEnv) (fig : Figaro)
    (ts : List Tool) (fig1 : Figaro) (args : List String) (m : String)
    (hg : GetAllTools fig = some (ts, fig1))
    (hllm : ∀ j, ∃ ds msg, env.llm j = Except.ok (ds, msg) ∧
      msg.stopReason = "tool_use" ∧ ∃ rs, callTools fig1 msg = Except.ok rs) :
    (RequestRun env fig args m).result = RunResult.err GoError.iterationExhausted ∧
    (RequestRun env fig args m).requests.length = 11 := by
  have hcache : fig1.toolsCache = some ts := (getAllTools_cache hg).1
  obtain ⟨ds, m0, hl0, hstop0, hct0⟩ := hllm 0
  have hloop := agentLoopGo_allToolUse env fig1 ts hcache hllm 10 0 rfl m0
    (appendMessage [createMessageParam (String.intercalate " " args) "user"] m0)
    1 0 hstop0 hct0
  unfold RequestRun
  simp only [hg, hl0]
  unfold agentLoop
  simp only [Nat.sub_zero]
  exact ⟨hloop.1, by simp [hloop.2]⟩

/-- Closed witness for C4's amended theorem at the always-`tool_use` run. -/
theorem c4_amended_witness :
    (RequestRun envToolUse figEcho ["go"] "m").result =
      RunResult.err GoError.iterationExhausted ∧
    (RequestRun envToolUse figEcho ["go"] "m").requests.length = 11 := by
  exact c4_amended_eleven_streams envToolUse figEcho [echoTool]
    ⟨[echoClient], some [echoTool]⟩ ["go"] "m" rfl
    (fun j => ⟨[], msgToolUse, rfl, rfl, [("u1", ⟨Json.str "ok"⟩)], rfl⟩)

/-- Unfolding a disrupted iteration (`i ≥ 10`): `shouldDisrupt` errors
before anything else happens. -/
theorem agentLoopGo_succ_disrupt (env : LoopEnv) (fuel : Nat) (fig : Figaro)
    (msg : AMessage) (conv : List MessageParam) (i k wk : Nat) (hi : ¬ i < 10) :
    agentLoopGo env (fuel + 1) fig msg conv i k wk =
      ⟨RunResult.err GoError.iterationExhausted, [], [], []⟩ := by
  have hs : shouldDisrupt i = some GoError.iterationExhausted := by
    simp [shouldDisrupt, hi]
  simp only [agentLoopGo, hs]

/-- Helper: the result, the issued requests and the written conversations of
the loop do not depend on the write-success oracle — a failed
`writeHostFile` only changes what is logged. -/
theorem agentLoopGo_writeOk_indep (env1 env2 : LoopEnv)
    (hllm : env1.llm = env2.llm) :
    ∀ fuel fig msg conv i k wk,
      (agentLoopGo env1 fuel fig msg conv i k wk).result =
        (agentLoopGo env2 fuel fig msg conv i k wk).result ∧
      (agentLoopGo env1 fuel fig msg conv i k wk).requests =
        (agentLoopGo env2 fuel fig msg conv i k wk).requests ∧
      (agentLoopGo env1 fuel fig msg conv i k wk).writes =
        (agentLoopGo env2 fuel fig msg conv i k wk).writes := by
  intro fuel
  induction fuel with
  | zero => intro fig msg conv i k wk; exact ⟨rfl, rfl, rfl⟩
  | succ fuel ih =>
    intro fig msg conv i k wk
    by_cases hi : i < 10
    · rw [agentLoopGo_succ env1 fuel fig msg conv i k wk hi,
        agentLoopGo_succ env2 fuel fig msg conv i k wk hi]
      by_cases hstop : msg.stopReason = "tool_use"
      · rw [if_pos hstop, if_pos hstop]
        cases hct : callTools fig msg with
        | error e => exact ⟨rfl, rfl, rfl⟩
        | ok rs =>
          cases hga : GetAllTools fig with
          | none => exact ⟨rfl, rfl, rfl⟩
          | some pr =>
            obtain ⟨tools, fig1⟩ := pr
            rw [hllm]
            cases hl : env2.llm k with
            | error e => exact ⟨rfl, rfl, rfl⟩
            | ok pr2 =>
              obtain ⟨ds, m1⟩ := pr2
              have hrec := ih fig1 m1
                (appendMessage
                  (conv ++ [MessageParam.mk "user"
                    (rs.map (fun p => createToolResultBlock p.1 p.2))])
                  m1)
                (i + 1) (k + 1) (wk + 1)
              refine ⟨hrec.1, ?_, ?_⟩ <;> simp [hrec.2.1, hrec.2.2]
      · rw [if_neg hstop, if_neg hstop]
        exact ⟨rfl, rfl, rfl⟩
    · rw [agentLoopGo_succ_disrupt env1 fuel fig msg conv i k wk hi,
        agentLoopGo_succ_disrupt env2 fuel fig msg conv i k wk hi]
      exact ⟨rfl, rfl, rfl⟩

/-- C8 counterexample: the claim says the conversation is serialized and
written after every iteration of the agent loop. On a run whose first
assistant turn stops with `end_turn` the loop executes its single
(terminating) iteration and writes nothing at all. -/
theorem c8_counterexample :
    (RequestRun envEnd figEcho ["hi"] "m").writes = [] ∧
    (RequestRun envEnd figEcho ["hi"] "m").result =
      RunResult.ok [createMessageParam "hi" "user",
        MessageParam.mk "assistant" [BlockParam.text "Hello!"]] := by
  exact ⟨rfl, rfl⟩

/-- C8 amended: the conversation is serialized and written only after each
tool-dispatching iteration of the agent loop (immediately after the
re-stream, so the write includes the newly streamed assistant turn); the
iteration that terminates the loop performs no write. A write failure is
logged and does not abort the loop: the loop's result, its issued LLM
requests and all written conversations are identical to those of a run
whose writes all succeed. -/
theorem c8_amended_write_failure_harmless :
    (∀ env1 env2 : LoopEnv, env1.llm = env2.llm → ∀ fig msg conv i k wk,
      (agentLoop env1 fig msg conv i k wk).result =
        (agentLoop env2 fig msg conv i k wk).result ∧
      (agentLoop env1 fig msg conv i k wk).requests =
        (agentLoop env2 fig msg conv i k wk).requests ∧
      (agentLoop env1 fig msg conv i k wk).writes =
        (agentLoop env2 fig msg conv i k wk).writes) ∧
    (∀ env fig msg conv i k wk, i < 10 → msg.stopReason ≠ "tool_use" →
      (agentLoop env fig msg conv i k wk).writes = [] ∧
      (agentLoop env fig msg conv i k wk).result = RunResult.ok conv) := by
  constructor
  · intro env1 env2 hllm fig msg conv i k wk
    exact agentLoopGo_writeOk_indep env1 env2 hllm (10 - i) fig msg conv i k wk
  · intro env fig msg conv i k wk hi hstop
    unfold agentLoop
    have hf : 10 - i = (10 - (i + 1)) + 1 := by omega
    rw [hf, agentLoopGo_succ env (10 - (i + 1)) fig msg conv i k wk hi]
    rw [if_neg hstop]
    exact ⟨rfl, rfl⟩

/-- LLM oracle identical to `envToolUse` except that every write fails. -/
def envToolUseBadWrite : LoopEnv := ⟨envToolUse.llm, fun _ => false⟩

/-- Closed witness for C8's amended theorem: a run whose writes all fail has
the same result, requests and writes as the run whose writes succeed, and a
terminating iteration writes nothing. -/
theorem c8_amended_witness :
    ((agentLoop envToolUseBadWrite figEcho msgToolUse
        [createMessageParam "go" "user"] 0 1 0).result =
      (agentLoop envToolUse figEcho msgToolUse
        [createMessageParam "go" "user"] 0 1 0).result ∧
      (agentLoop envToolUseBadWrite figEcho msgToolUse
        [createMessageParam "go" "user"] 0 1 0).requests =
      (agentLoop envToolUse figEcho msgToolUse
        [createMessageParam "go" "user"] 0 1 0).requests ∧
      (agentLoop envToolUseBadWrite figEcho msgToolUse
        [createMessageParam "go" "user"] 0 1 0).writes =
      (agentLoop envToolUse figEcho msgToolUse
        [createMessageParam "go" "user"] 0 1 0).writes) ∧
    (agentLoop envEnd figEcho msgEnd [createMessageParam "hi" "user"] 0 1 0).writes = [] := by
  constructor
  · exact c8_amended_write_failure_harmless.1 envToolUseBadWrite envToolUse rfl
      figEcho msgToolUse [createMessageParam "go" "user"] 0 1 0
  · exact (c8_amended_write_failure_harmless.2 envEnd figEcho msgEnd
      [createMessageParam "hi" "user"] 0 1 0 (by decide) (by decide)).1

/-- Parameters of `calculateMessageHash` from `src/conversation.go` that live
below the Go standard library: `marshal` stands for `json.Marshal` of the
`(prevHash, role, content, timestamp)` payload (`none` models a marshal
error), `sha256hex` for the hex-encoded SHA-256 digest, and
`formatRFC3339Nano` for `timestamp.Format(time.RFC3339Nano)`. Timestamps are
abstracted as naturals. -/
structure HashEnv where
  marshal : String × String × String × Nat → Option String
  sha256hex : String → String
  formatRFC3339Nano : Nat → String

/-- `calculateMessageHash`: the SHA-256 hex digest of the JSON encoding of
`(prevHash, role, content, timestamp)`, falling back to the digest of the
plain concatenation when marshaling fails. -/
def calculateMessageHash (he : HashEnv) (prevHash role content : String)
    (timestamp : Nat) : String :=
  match he.marshal (prevHash, role, content, timestamp) with
  | some jsonData => he.sha256hex jsonData
  | none =>
      he.sha256hex (prevHash ++ role ++ content ++ he.formatRFC3339Nano timestamp)

/-- A `Message` of the conversation store. -/
structure ConvMessage where
  role : String
  content : String
  timestamp : Nat
  hash : String
  prevHash : String

/-- A `Conversation` (the `Parent` field plays no role in the hash chain). -/
structure ConversationM where
  name : String
  messages : List ConvMessage

/-- `Conversation.addMessage`: previous hash is the last message's hash (or
empty), the new hash is computed over the payload, and the message is
appended. -/
def addMessage (he : HashEnv) (c : ConversationM) (role content : String)
    (timestamp : Nat) : ConversationM :=
  let prevHash :=
    match c.messages.getLast? with
    | some last => last.hash
    | none => ""
  let hash := calculateMessageHash he prevHash role content timestamp
  { c with messages := c.messages ++ [⟨role, content, timestamp, hash, prevHash⟩] }

/-- `Conversation.addUserMessage`. -/
def addUserMessage (he : HashEnv) (c : ConversationM) (content : String)
    (timestamp : Nat) : ConversationM :=
  addMessage he c "user" content timestamp

/-- `Conversation.addAssistantMessage`. -/
def addAssistantMessage (he : HashEnv) (c : ConversationM) (content : String)
    (timestamp : Nat) : ConversationM :=
  addMessage he c "assistant" content timestamp

/-- The hash-chain check with running previous hash `prev`: each message's
`prevHash` equals `prev` and its `hash` recomputes from its own payload. -/
def chainOk (he : HashEnv) : String → List ConvMessage → Bool
  | _, [] => true
  | prev, m :: rest =>
      (m.prevHash == prev) &&
        (m.hash == calculateMessageHash he m.prevHash m.role m.content m.timestamp) &&
        chainOk he m.hash rest

/-- The hash-chain invariant of a conversation: chain from the empty hash. -/
def chainInvariant (he : HashEnv) (c : ConversationM) : Bool :=
  chainOk he "" c.messages

/-- The hash the next appended message must chain from. -/
def lastHash (prev : String) (msgs : List ConvMessage) : String :=
  match msgs.getLast? with
  | some m => m.hash
  | none => prev

/-- A call sequence of the two append operations. -/
inductive ConvOp where
  | user (content : String) (timestamp : Nat)
  | assistant (content : String) (timestamp : Nat)

/-- One operation applied to a conversation. -/
def applyOp (he : HashEnv) (c : ConversationM) : ConvOp → ConversationM
  | ConvOp.user content ts => addUserMessage he c content ts
  | ConvOp.assistant content ts => addAssistantMessage he c content ts

/-- A sequence of operations applied in order. -/
def applyOps (he : HashEnv) (c : ConversationM) (ops : List ConvOp) : ConversationM :=
  ops.foldl (applyOp he) c

/-- Helper: `lastHash` steps through a cons cell. -/
theorem lastHash_cons (prev : String) (m : ConvMessage) (rest : List ConvMessage) :
    lastHash prev (m :: rest) = lastHash m.hash rest := by
  cases rest with
  | nil => rfl
  | cons b l =>
    unfold lastHash
    rw [List.getLast?_cons_cons]
    cases hg : (b :: l).getLast? with
    | some x => rfl
    | none =>
      exfalso
      have h1 : (b :: l).getLast?.isSome := List.getLast?_isSome.mpr (by simp)
      rw [hg] at h1
      simp at h1

/-- Helper: appending a correctly chained message preserves `chainOk`. -/
theorem chainOk_concat (he : HashEnv) :
    ∀ (msgs : List ConvMessage) (prev : String) (new : ConvMessage),
      chainOk he prev msgs = true →
      new.prevHash = lastHash prev msgs →
      new.hash = calculateMessageHash he new.prevHash new.role new.content
        new.timestamp →
      chainOk he prev (msgs ++ [new]) = true := by
  intro msgs
  induction msgs with
  | nil =>
    intro prev new _ hprev hhash
    simp only [List.nil_append, chainOk, Bool.and_eq_true, beq_iff_eq]
    exact ⟨⟨by simpa [lastHash] using hprev, hhash⟩, trivial⟩
  | cons m rest ih =>
    intro prev new h hprev hhash
    simp only [chainOk, Bool.and_eq_true] at h
    obtain ⟨⟨h1, h2⟩, h3⟩ := h
    simp only [List.cons_append, chainOk, Bool.and_eq_true]
    refine ⟨⟨h1, h2⟩, ?_⟩
    refine ih m.hash new h3 ?_ hhash
    rw [hprev, lastHash_cons]

/-- Helper: `addMessage` preserves the hash-chain invariant. -/
theorem chainInvariant_addMessage (he : HashEnv) (c : ConversationM)
    (role content : String) (ts : Nat) (h : chainInvariant he c = true) :
    chainInvariant he (addMessage he c role content ts) = true := by
  unfold chainInvariant addMessage
  refine chainOk_concat he c.messages "" _ h ?_ ?_
  · show (match c.messages.getLast? with
      | some last => last.hash
      | none => "") = lastHash "" c.messages
    rfl
  · rfl

/-- C9: every conversation built from the empty one by any sequence of
addUserMessage and addAssistantMessage calls satisfies the hash-chain
invariant — message 0 chains from the empty hash, every later message's
prevHash is the previous message's hash, and every hash recomputes via
calculateMessageHash from the message's own (prevHash, role, content,
timestamp) — and both operations preserve the invariant on any conversation
satisfying it. -/
theorem c9_hash_chain_invariant :
    (∀ he name ops, chainInvariant he (applyOps he ⟨name, []⟩ ops) = true) ∧
    (∀ he c, chainInvariant he c = true → ∀ content ts,
      chainInvariant he (addUserMessage he c content ts) = true ∧
      chainInvariant he (addAssistantMessage he c content ts) = true) := by
  have hops : ∀ he (ops : List ConvOp) (c : ConversationM),
      chainInvariant he c = true →
      chainInvariant he (applyOps he c ops) = true := by
    intro he ops
    induction ops with
    | nil => intro c h; exact h
    | cons op rest ih =>
      intro c h
      refine ih (applyOp he c op) ?_
      cases op with
      | user content ts => exact chainInvariant_addMessage he c "user" content ts h
      | assistant content ts =>
          exact chainInvariant_addMessage he c "assistant" content ts h
  constructor
  · intro he name ops
    exact hops he ops ⟨name, []⟩ rfl
  · intro he c h content ts
    exact ⟨chainInvariant_addMessage he c "user" content ts h,
      chainInvariant_addMessage he c "assistant" content ts h⟩

/-- A concrete hash environment for the witness. -/
def heTest : HashEnv :=
  ⟨fun p => some (p.1 ++ "|" ++ p.2.1 ++ "|" ++ p.2.2.1 ++ "|" ++ toString p.2.2.2),
    fun s => "sha:" ++ s, fun n => toString n⟩

/-- Closed witness for C9 at a concrete conversation and operations. -/
theorem c9_witness :
    chainInvariant heTest
      (applyOps heTest ⟨"conv", []⟩
        [ConvOp.user "hi" 1, ConvOp.assistant "hello" 2]) = true ∧
    chainInvariant heTest
      (addUserMessage heTest ⟨"conv", []⟩ "x" 3) = true := by
  refine ⟨c9_hash_chain_invariant.1 heTest "conv" _, ?_⟩
  exact (c9_hash_chain_invariant.2 heTest ⟨"conv", []⟩ rfl "x" 3).1
